import Mathlib

/-!
Shallow embedding of the `oml-mailbox` disk backend (`src/mailbox_disk.rs`).

The filesystem is modelled as two association lists: one mapping a mailbox id
to its `mailbox_meta.json` file, one mapping a `(mailbox_id, item_id)` pair to
the envelope file `<item_id>.<extension>`.  A stored file is either `good`
(well-formed JSON that deserializes to the given value; the serde round trip
is taken as exact) or `corrupt` (present but unreadable/unparsable).  An
absent key is a missing file.

Rust `u64` values are `Nat`s; the `+= 1` increments in `next_id` and
`mark_read` fail (model of the overflow panic) when the value would leave the
`u64` range, so a state reachable through the model always stays in range.
`format!("{id}")` is `Nat.repr`; `str.parse::<u64>()` is `parseU64` below.
The `base64` crate's `BASE64_STANDARD` engine (canonical padding, no trailing
bits) and `String::from_utf8` (strict UTF-8) are implemented concretely.

Each engine operation takes the disk state and returns the Rust `Result`
together with the state left on disk (writes performed before a failure are
kept, mirroring the source's sequencing of `save` calls).
-/

namespace OmlMailbox

/-- Decidable equality for `Except`, so concrete operation results can be
checked by `decide`. -/
instance {ε α : Type} [DecidableEq ε] [DecidableEq α] : DecidableEq (Except ε α) :=
  fun a b =>
    match a, b with
    | Except.ok x, Except.ok y =>
      if h : x = y then isTrue (congrArg Except.ok h)
      else isFalse (fun hc => h (Except.ok.inj hc))
    | Except.error x, Except.error y =>
      if h : x = y then isTrue (congrArg Except.error h)
      else isFalse (fun hc => h (Except.error.inj hc))
    | Except.ok _, Except.error _ => isFalse (fun hc => Except.noConfusion hc)
    | Except.error _, Except.ok _ => isFalse (fun hc => Except.noConfusion hc)

/-- Association-list lookup, first binding wins (a file path resolves to at
most one file). -/
def alookup {κ α : Type} [DecidableEq κ] : List (κ × α) → κ → Option α
  | [], _ => none
  | (k, v) :: rest, k0 => if k0 = k then some v else alookup rest k0

/-- Association-list update: overwrite the binding for `k`, or append it.
Models writing a file at a path. -/
def aset {κ α : Type} [DecidableEq κ] : List (κ × α) → κ → α → List (κ × α)
  | [], k, v => [(k, v)]
  | (k1, v1) :: rest, k, v =>
    if k = k1 then (k, v) :: rest else (k1, v1) :: aset rest k v

/-- `2^64`, the number of `u64` values. -/
def U64LIMIT : Nat := 2 ^ 64

/-- Value of a decimal digit string (already validated to be all digits). -/
def decDigitsVal (cs : List Char) : Nat :=
  cs.foldl (fun a c => a * 10 + (c.toNat - 48)) 0

/-- Is `c` an ASCII digit `0`-`9`? -/
def isDecDigit (c : Char) : Bool := 48 ≤ c.toNat ∧ c.toNat ≤ 57

/-- Rust `str::parse::<u64>()` on the character list: optional leading `+`,
one or more ASCII digits, value must fit in `u64`. -/
def parseU64chars (cs : List Char) : Option Nat :=
  let t := match cs with
    | '+' :: rest => rest
    | _ => cs
  if t ≠ [] ∧ t.all isDecDigit then
    let n := decDigitsVal t
    if n < U64LIMIT then some n else none
  else
    none

/-- Rust `str::parse::<u64>()`. -/
def parseU64 (s : String) : Option Nat := parseU64chars s.toList

/-- The standard base64 alphabet. -/
def b64alphabet : List Char :=
  "ABCDEFGHIJKLMNOPQRSTUVWXYZabcdefghijklmnopqrstuvwxyz0123456789+/".toList

/-- Character for a 6-bit group. -/
def b64char (n : Nat) : Char := b64alphabet.getD n 'A'

/-- 6-bit value of an alphabet character, `none` for anything else
(including `=`). -/
def b64val (c : Char) : Option Nat :=
  let i := b64alphabet.indexOf c
  if i < 64 then some i else none

/-- Base64-encode a byte list, three bytes at a time, with `=` padding
(`BASE64_STANDARD.encode`). -/
def b64encodeBytes : List Nat → List Char
  | [] => []
  | [b0] =>
    [b64char (b0 / 4), b64char (b0 % 4 * 16), '=', '=']
  | [b0, b1] =>
    [b64char (b0 / 4), b64char (b0 % 4 * 16 + b1 / 16), b64char (b1 % 16 * 4), '=']
  | b0 :: b1 :: b2 :: rest =>
    b64char (b0 / 4) :: b64char (b0 % 4 * 16 + b1 / 16)
      :: b64char (b1 % 16 * 4 + b2 / 64) :: b64char (b2 % 64)
      :: b64encodeBytes rest

/-- `BASE64_STANDARD.encode` as a string-producing function. -/
def b64encode (bs : List Nat) : String := String.mk (b64encodeBytes bs)

/-- Base64-decode four characters at a time; canonical padding required and
trailing bits must be zero (the `BASE64_STANDARD` engine rejects both). -/
def b64decodeGroups : List Char → Option (List Nat)
  | [] => some []
  | a :: b :: c :: d :: rest =>
    match b64val a, b64val b with
    | some va, some vb =>
      if c = '=' then
        if d = '=' ∧ rest = [] ∧ vb % 16 = 0 then
          some [va * 4 + vb / 16]
        else none
      else
        match b64val c with
        | some vc =>
          if d = '=' then
            if rest = [] ∧ vc % 4 = 0 then
              some [va * 4 + vb / 16, vb % 16 * 16 + vc / 4]
            else none
          else
            match b64val d with
            | some vd =>
              match b64decodeGroups rest with
              | some bs =>
                some ((va * 4 + vb / 16) :: (vb % 16 * 16 + vc / 4)
                  :: (vc % 4 * 64 + vd) :: bs)
              | none => none
            | none => none
        | none => none
    | _, _ => none
  | _ => none

/-- `BASE64_STANDARD.decode`: `none` models the `Err` case. -/
def b64decode (s : String) : Option (List Nat) :=
  b64decodeGroups s.toList

/-- Is `b` a UTF-8 continuation byte (`10xxxxxx`)? -/
def utf8cont (b : Nat) : Bool := 0x80 ≤ b ∧ b < 0xC0

/-- Strict UTF-8 decoding of a byte list (what Rust's `String::from_utf8`
accepts): rejects overlong forms, surrogates, and values above `0x10FFFF`. -/
def utf8Decode : List Nat → Option (List Char)
  | [] => some []
  | b :: rest =>
    if b < 0x80 then
      match utf8Decode rest with
      | some cs => some (Char.ofNat b :: cs)
      | none => none
    else if b < 0xC2 then none
    else if b < 0xE0 then
      match rest with
      | b1 :: rest1 =>
        if utf8cont b1 then
          match utf8Decode rest1 with
          | some cs => some (Char.ofNat ((b - 0xC0) * 64 + (b1 - 0x80)) :: cs)
          | none => none
        else none
      | _ => none
    else if b < 0xF0 then
      match rest with
      | b1 :: b2 :: rest2 =>
        if utf8cont b1 ∧ utf8cont b2 then
          let v := (b - 0xE0) * 4096 + (b1 - 0x80) * 64 + (b2 - 0x80)
          if 0x800 ≤ v ∧ ¬(0xD800 ≤ v ∧ v ≤ 0xDFFF) then
            match utf8Decode rest2 with
            | some cs => some (Char.ofNat v :: cs)
            | none => none
          else none
        else none
      | _ => none
    else if b < 0xF5 then
      match rest with
      | b1 :: b2 :: b3 :: rest3 =>
        if utf8cont b1 ∧ utf8cont b2 ∧ utf8cont b3 then
          let v := (b - 0xF0) * 262144 + (b1 - 0x80) * 4096
            + (b2 - 0x80) * 64 + (b3 - 0x80)
          if 0x10000 ≤ v ∧ v ≤ 0x10FFFF then
            match utf8Decode rest3 with
            | some cs => some (Char.ofNat v :: cs)
            | none => none
          else none
        else none
      | _ => none
    else none

/-- `String::from_utf8(data).unwrap_or_default()`. -/
def utf8OrDefault (bs : List Nat) : String :=
  match utf8Decode bs with
  | some cs => String.mk cs
  | none => ""

/-- The `Envelope` struct: one stored item. -/
structure Envelope : Type where
  id : String
  read : Bool
  data : String
  debug : Option String
deriving DecidableEq

/-- `Envelope::new`: base64-encode the payload, unread, no debug copy. -/
def Envelope.new (id : String) (data : List Nat) : Envelope :=
  { id := id, read := false, data := b64encode data, debug := none }

/-- `Envelope::data`: base64-decode the stored payload (`none` = `Err`). -/
def Envelope.dataBytes (e : Envelope) : Option (List Nat) :=
  b64decode e.data

/-- `Envelope::mark_read`. -/
def Envelope.mark_read (e : Envelope) : Envelope :=
  { e with read := true }

/-- `send`'s `let _ = e.add_debug();`: best-effort decoded payload; a decode
error is discarded, leaving the envelope unchanged. -/
def Envelope.add_debug (e : Envelope) : Envelope :=
  match b64decode e.data with
  | some bs => { e with debug := some (utf8OrDefault bs) }
  | none => e

/-- The `MailboxMeta` struct: per-mailbox counters. -/
structure MailboxMeta : Type where
  highest_used_id : Nat
  lowest_unread_id : Nat
  read_ids : List Nat
deriving DecidableEq

/-- `MailboxMeta::default()`: `highest_used_id = 0`, `lowest_unread_id = 1`,
empty `read_ids`. -/
def MailboxMeta.default : MailboxMeta :=
  { highest_used_id := 0, lowest_unread_id := 1, read_ids := [] }

/-- `MailboxMeta::next_id`: `highest_used_id += 1` (fails on `u64` overflow),
returning the new id's decimal string. -/
def MailboxMeta.next_id (m : MailboxMeta) : Option (String × MailboxMeta) :=
  if m.highest_used_id + 1 < U64LIMIT then
    some (Nat.repr (m.highest_used_id + 1),
      { m with highest_used_id := m.highest_used_id + 1 })
  else none

/-- `MailboxMeta::any_unread`: `highest_used_id > lowest_unread_id`
(strict comparison, as in the source). -/
def MailboxMeta.any_unread (m : MailboxMeta) : Bool :=
  m.highest_used_id > m.lowest_unread_id

/-- `MailboxMeta::lowest_unread_id()`: the pointer as a decimal string. -/
def MailboxMeta.lowest_unread_str (m : MailboxMeta) : String :=
  Nat.repr m.lowest_unread_id

/-- `MailboxMeta::mark_read`: advance the pointer by 1 when `id` equals it
(fails on `u64` overflow); otherwise only warn, leaving the meta unchanged. -/
def MailboxMeta.mark_read (m : MailboxMeta) (id : Nat) : Option MailboxMeta :=
  if id = m.lowest_unread_id then
    if m.lowest_unread_id + 1 < U64LIMIT then
      some { m with lowest_unread_id := m.lowest_unread_id + 1 }
    else none
  else some m

/-- A file on disk: readable and well-formed, or present but corrupt. -/
inductive FileData (α : Type) : Type where
  | good (a : α) : FileData α
  | corrupt : FileData α
deriving DecidableEq

/-- The disk under `base_path`: meta files keyed by mailbox id, envelope
files keyed by `(mailbox_id, item_id)`. -/
structure DiskState : Type where
  metas : List (String × FileData MailboxMeta)
  envelopes : List ((String × String) × FileData Envelope)
deriving DecidableEq

/-- A freshly created `base_path` with no mailboxes. -/
def DiskState.empty : DiskState := { metas := [], envelopes := [] }

/-- Read the meta file of a mailbox. -/
def lookupMeta (s : DiskState) (mailbox_id : String) :
    Option (FileData MailboxMeta) :=
  alookup s.metas mailbox_id

/-- `MailboxMeta::save` to `meta_path(mailbox_id)`. -/
def saveMeta (s : DiskState) (mailbox_id : String) (m : MailboxMeta) :
    DiskState :=
  { s with metas := aset s.metas mailbox_id (FileData.good m) }

/-- Read the envelope file of an item. -/
def lookupEnv (s : DiskState) (mailbox_id item_id : String) :
    Option (FileData Envelope) :=
  alookup s.envelopes (mailbox_id, item_id)

/-- `Envelope::save` to `item_path(mailbox_id, item_id)`. -/
def saveEnvelope (s : DiskState) (mailbox_id item_id : String)
    (e : Envelope) : DiskState :=
  { s with envelopes := aset s.envelopes (mailbox_id, item_id) (FileData.good e) }

/-- The error cases an engine operation can surface. -/
inductive MbError : Type where
  | brokenMailbox (mailbox_id item_id : String) : MbError
  | metaCorrupt (mailbox_id : String) : MbError
  | idParse (item_id : String) : MbError
  | overflow : MbError
  | codec (msg : String) : MbError
deriving DecidableEq

/-- The `MailboxItem` trait: the item codec supplied by the caller. -/
structure MailboxItemCodec (ITEM : Type) : Type where
  serialize : ITEM → Except String (List Nat)
  deserialize : List Nat → Except String ITEM

/-- `MailboxDisk::ensure_meta`: load the meta file if it exists (failing if
it is corrupt), otherwise create, save and return the default meta. -/
def ensure_meta (s : DiskState) (mailbox_id : String) :
    Except MbError MailboxMeta × DiskState :=
  match lookupMeta s mailbox_id with
  | some (FileData.good m) => (Except.ok m, s)
  | some FileData.corrupt => (Except.error (MbError.metaCorrupt mailbox_id), s)
  | none => (Except.ok MailboxMeta.default, saveMeta s mailbox_id MailboxMeta.default)

/-- `MailboxDisk::send`: allocate the next id, wrap the serialized item in an
envelope (with best-effort debug copy), persist the envelope, then the
updated meta; return the id string. -/
def send {ITEM : Type} (codec : MailboxItemCodec ITEM) (s : DiskState)
    (mailbox_id : String) (item : ITEM) : Except MbError String × DiskState :=
  match ensure_meta s mailbox_id with
  | (Except.error e, s1) => (Except.error e, s1)
  | (Except.ok meta, s1) =>
    match meta.next_id with
    | none => (Except.error MbError.overflow, s1)
    | some (item_id, meta1) =>
      match codec.serialize item with
      | Except.error msg => (Except.error (MbError.codec msg), s1)
      | Except.ok data =>
        let e := (Envelope.new item_id data).add_debug
        let s2 := saveEnvelope s1 mailbox_id item_id e
        let s3 := saveMeta s2 mailbox_id meta1
        (Except.ok item_id, s3)

/-- `MailboxDisk::receive`: if `any_unread` is false return `None`; otherwise
load the envelope at `lowest_unread_id` (a missing or corrupt file is a
broken-mailbox error), decode and deserialize it.  Nothing is written. -/
def receive {ITEM : Type} (codec : MailboxItemCodec ITEM) (s : DiskState)
    (mailbox_id : String) :
    Except MbError (Option (String × ITEM)) × DiskState :=
  match ensure_meta s mailbox_id with
  | (Except.error e, s1) => (Except.error e, s1)
  | (Except.ok meta, s1) =>
    if meta.any_unread = false then (Except.ok none, s1)
    else
      let item_id := meta.lowest_unread_str
      match lookupEnv s1 mailbox_id item_id with
      | some (FileData.good e) =>
        match e.dataBytes with
        | none => (Except.error (MbError.codec "base64"), s1)
        | some data =>
          match codec.deserialize data with
          | Except.error msg => (Except.error (MbError.codec msg), s1)
          | Except.ok item => (Except.ok (some (item_id, item)), s1)
      | _ => (Except.error (MbError.brokenMailbox mailbox_id item_id), s1)

/-- `MailboxDisk::acknowledge`: load the envelope (broken-mailbox error if
missing or corrupt), mark it read in memory, parse the id, update the meta
pointer, then persist the envelope and the meta — so a parse failure happens
before anything is written. -/
def acknowledge (s : DiskState) (mailbox_id item_id : String) :
    Except MbError Unit × DiskState :=
  match ensure_meta s mailbox_id with
  | (Except.error e, s1) => (Except.error e, s1)
  | (Except.ok meta, s1) =>
    match lookupEnv s1 mailbox_id item_id with
    | some (FileData.good e) =>
      let e1 := e.mark_read
      match parseU64 item_id with
      | none => (Except.error (MbError.idParse item_id), s1)
      | some id =>
        match meta.mark_read id with
        | none => (Except.error MbError.overflow, s1)
        | some meta1 =>
          let s2 := saveEnvelope s1 mailbox_id item_id e1
          let s3 := saveMeta s2 mailbox_id meta1
          (Except.ok (), s3)
    | _ => (Except.error (MbError.brokenMailbox mailbox_id item_id), s1)

/-- The item codec used for concrete runs: items are raw byte lists and the
codec is the identity, which trivially satisfies the round-trip law. -/
def listCodec : MailboxItemCodec (List Nat) :=
  { serialize := fun x => Except.ok x, deserialize := fun bs => Except.ok bs }

theorem alookup_aset {κ α : Type} [DecidableEq κ] (l : List (κ × α)) (k k0 : κ) (v : α) :
    alookup (aset l k v) k0 = if k0 = k then some v else alookup l k0 := by
  induction l with
  | nil => simp [aset, alookup]
  | cons p rest ih =>
    obtain ⟨k1, v1⟩ := p
    by_cases h1 : k = k1
    · subst h1
      by_cases h0 : k0 = k <;> simp [aset, alookup, h0]
    · by_cases h0 : k0 = k1
      · subst h0
        have : ¬ k0 = k := fun hc => h1 hc.symm
        simp [aset, alookup, h1, this]
      · simp [aset, alookup, h1, h0, ih]

theorem alookup_mem {κ α : Type} [DecidableEq κ] {l : List (κ × α)} {k : κ} {v : α}
    (h : alookup l k = some v) : (k, v) ∈ l := by
  induction l with
  | nil => simp [alookup] at h
  | cons p rest ih =>
    obtain ⟨k1, v1⟩ := p
    by_cases hk : k = k1
    · subst hk
      simp [alookup] at h
      simp [h]
    · simp [alookup, hk] at h
      exact List.mem_cons_of_mem _ (ih h)

theorem mem_aset {κ α : Type} [DecidableEq κ] {l : List (κ × α)} {k : κ} {v : α} {p : κ × α}
    (h : p ∈ aset l k v) : p = (k, v) ∨ p ∈ l := by
  induction l with
  | nil =>
    simp [aset] at h
    simp [h]
  | cons q rest ih =>
    obtain ⟨k1, v1⟩ := q
    by_cases hk : k = k1
    · subst hk
      simp [aset] at h
      rcases h with h | h
      · exact Or.inl (by simp [h])
      · exact Or.inr (List.mem_cons_of_mem _ h)
    · simp [aset, hk] at h
      rcases h with h | h
      · exact Or.inr (by simp [h])
      · rcases ih h with h1 | h1
        · exact Or.inl h1
        · exact Or.inr (List.mem_cons_of_mem _ h1)

theorem ensure_meta_of_good {s : DiskState} {mailbox_id : String} {m : MailboxMeta}
    (hm : lookupMeta s mailbox_id = some (FileData.good m)) :
    ensure_meta s mailbox_id = (Except.ok m, s) := by
  simp [ensure_meta, hm]

theorem lookupMeta_saveMeta (s : DiskState) (mailbox_id k : String) (m : MailboxMeta) :
    lookupMeta (saveMeta s mailbox_id m) k =
      if k = mailbox_id then some (FileData.good m) else lookupMeta s k := by
  simp [lookupMeta, saveMeta, alookup_aset]

theorem lookupMeta_saveEnvelope (s : DiskState) (mailbox_id item_id k : String) (e : Envelope) :
    lookupMeta (saveEnvelope s mailbox_id item_id e) k = lookupMeta s k := by
  simp [lookupMeta, saveEnvelope]

theorem lookupEnv_saveMeta (s : DiskState) (mailbox_id k iid : String) (m : MailboxMeta) :
    lookupEnv (saveMeta s mailbox_id m) k iid = lookupEnv s k iid := by
  simp [lookupEnv, saveMeta]

/-- Mailbox `"42"` after sending the bytes of `"one"`, as in the repository's
`it_sends_and_receives` test. -/
def demoS1 : DiskState := (send listCodec DiskState.empty "42" [111, 110, 101]).2

/-- … then sending the bytes of `"two"`. -/
def demoS2 : DiskState := (send listCodec demoS1 "42" [116, 119, 111]).2

/-- … then acknowledging item `"1"`. -/
def demoS3 : DiskState := (acknowledge demoS2 "42" "1").2

/-- C1: with a round-tripping codec, after `send` returns id `i` and all
lower ids are acknowledged, `receive` is claimed to return `Some (i, x)`.
The code refutes this at the smallest input: on a fresh mailbox a single
`send` returns id `"1"` (nothing lower to acknowledge), yet `receive`
returns `Ok(None)`, because `any_unread` compares `highest_used_id >
lowest_unread_id` strictly (`1 > 1` is false).  The claim is the intent —
the spec's round-trip law and the repository's own `it_sends_and_receives`
test (two fresh sends must yield two deliveries) both require delivery of
the newest item — so this is a code bug, not a spec error. -/
theorem send_then_receive_loses_newest_item :
    (send listCodec DiskState.empty "m" [104, 105]).1 = Except.ok "1" ∧
    (receive listCodec (send listCodec DiskState.empty "m" [104, 105]).2 "m").1 =
      Except.ok none :=
  ⟨rfl, rfl⟩

/-- C2: acknowledging `id = lowest_unread_id` is claimed to advance the
pointer by 1 so that the next `receive` returns `id + 1` when an item with
that id was sent.  The pointer does advance by exactly 1, but at the
concrete input of the repository's own test — send `"one"`, send `"two"`,
receive (gets `"1"`), acknowledge `"1"` — the next `receive` returns
`Ok(None)` even though item `"2"` was sent, again because of the strict
comparison in `any_unread`.  The test asserts two deliveries, so the code,
not the claim, is wrong. -/
theorem ack_advances_pointer_but_receive_skips_last :
    (send listCodec demoS1 "42" [116, 119, 111]).1 = Except.ok "2" ∧
    (receive listCodec demoS2 "42").1 = Except.ok (some ("1", [111, 110, 101])) ∧
    (acknowledge demoS2 "42" "1").1 = Except.ok () ∧
    lookupMeta demoS3 "42" =
      some (FileData.good
        { highest_used_id := 2, lowest_unread_id := 2, read_ids := [] }) ∧
    (receive listCodec demoS3 "42").1 = Except.ok none :=
  ⟨rfl, rfl, rfl, rfl, rfl⟩

/-- C3: `receive` returns `Ok(None)` exactly when the mailbox's metadata has
`highest_used_id ≤ lowest_unread_id`: the `any_unread` check is the only
source of `Ok(None)`, and every other branch produces either an item or an
error. -/
theorem receive_none_iff_no_unread {ITEM : Type} (codec : MailboxItemCodec ITEM)
    (s : DiskState) (mailbox_id : String) (m : MailboxMeta)
    (hm : lookupMeta s mailbox_id = some (FileData.good m)) :
    (receive codec s mailbox_id).1 = Except.ok none ↔
      m.highest_used_id ≤ m.lowest_unread_id := by
  have hem := ensure_meta_of_good hm
  by_cases hu : m.any_unread = false
  · have hle : m.highest_used_id ≤ m.lowest_unread_id := by
      simp [MailboxMeta.any_unread] at hu
      omega
    simp [receive, hem, hu, hle]
  · have hu1 : m.any_unread = true := by
      revert hu; cases m.any_unread <;> simp
    have hgt : m.lowest_unread_id < m.highest_used_id := by
      simpa [MailboxMeta.any_unread] using hu1
    apply iff_of_false
    · intro hc
      simp only [receive, hem, hu1] at hc
      rcases h1 : lookupEnv s mailbox_id m.lowest_unread_str with _ | f
      · simp [h1] at hc
      · rcases f with e | _
        · rcases h2 : e.dataBytes with _ | data
          · simp [h1, h2] at hc
          · rcases h3 : codec.deserialize data with msg | item
            · simp [h1, h2, h3] at hc
            · simp [h1, h2, h3] at hc
        · simp [h1] at hc
    · omega

/-- A mailbox whose meta says nothing is unread, for the C3 witness. -/
def w3state : DiskState :=
  { metas := [("m", FileData.good
      { highest_used_id := 0, lowest_unread_id := 1, read_ids := [] })],
    envelopes := [] }

theorem receive_none_iff_no_unread_witness :
    (receive listCodec w3state "m").1 = Except.ok none :=
  (receive_none_iff_no_unread listCodec w3state "m"
    { highest_used_id := 0, lowest_unread_id := 1, read_ids := [] }
    (by rfl)).mpr (by decide)

/-- An unread envelope stored under the non-numeric item id `"abc"`. -/
def c4env : Envelope := { id := "abc", read := false, data := "", debug := none }

/-- A mailbox holding `c4env`, for the C4 input. -/
def c4state : DiskState :=
  { metas := [("m", FileData.good
      { highest_used_id := 5, lowest_unread_id := 1, read_ids := [] })],
    envelopes := [(("m", "abc"), FileData.good c4env)] }

/-- C4, counterexample: the claim says that when the acknowledged id fails to
parse, the envelope has already been marked read *and persisted* before the
failure.  At this concrete input the call does fail with the id-parse error,
but the disk is completely unchanged: the stored envelope still has
`read = false`.  In the source the `item_id.parse::<u64>()?` line sits
*before* `envelope.save(&p)`, so the in-memory `mark_read` is never written. -/
theorem ack_parse_failure_envelope_not_persisted :
    (acknowledge c4state "m" "abc").1 = Except.error (MbError.idParse "abc") ∧
    (acknowledge c4state "m" "abc").2 = c4state ∧
    lookupEnv (acknowledge c4state "m" "abc").2 "m" "abc" = some (FileData.good c4env) ∧
    c4env.read = false :=
  ⟨rfl, rfl, rfl, rfl⟩

/-- C4, amended: when the envelope for `item_id` exists and loads but
`item_id` does not parse as an unsigned integer, `acknowledge` fails with the
id-parse error and writes nothing at all — the envelope is marked read only
in memory (never persisted) and the metadata, including the pointer, is
unchanged on disk. -/
theorem ack_parse_failure_writes_nothing (s : DiskState)
    (mailbox_id item_id : String) (m : MailboxMeta) (e : Envelope)
    (hm : lookupMeta s mailbox_id = some (FileData.good m))
    (he : lookupEnv s mailbox_id item_id = some (FileData.good e))
    (hp : parseU64 item_id = none) :
    acknowledge s mailbox_id item_id = (Except.error (MbError.idParse item_id), s) := by
  have hem := ensure_meta_of_good hm
  simp [acknowledge, hem, he, hp]

theorem ack_parse_failure_writes_nothing_witness :
    acknowledge c4state "m" "abc" = (Except.error (MbError.idParse "abc"), c4state) :=
  ack_parse_failure_writes_nothing c4state "m" "abc"
    { highest_used_id := 5, lowest_unread_id := 1, read_ids := [] }
    c4env (by rfl) (by rfl) (by rfl)

/-- C5: when the metadata designates `lowest_unread_id` as the candidate
(`any_unread` holds) but its envelope file is missing or corrupt, `receive`
fails with the broken-mailbox error naming the mailbox and the item id,
delivers nothing, and leaves the disk state — in particular the whole
metadata file — exactly as it was; since the state is unchanged, every
subsequent `receive` fails identically until the file is repaired. -/
theorem receive_broken_mailbox_stuck {ITEM : Type} (codec : MailboxItemCodec ITEM)
    (s : DiskState) (mailbox_id : String) (m : MailboxMeta)
    (hm : lookupMeta s mailbox_id = some (FileData.good m))
    (hu : m.any_unread = true)
    (he : lookupEnv s mailbox_id m.lowest_unread_str = none ∨
      lookupEnv s mailbox_id m.lowest_unread_str = some FileData.corrupt) :
    receive codec s mailbox_id =
      (Except.error (MbError.brokenMailbox mailbox_id m.lowest_unread_str), s) := by
  have hem := ensure_meta_of_good hm
  rcases he with he | he <;> simp [receive, hem, hu, he]

/-- A mailbox whose metadata references item `"1"` but whose envelope file is
missing, for the C5 witness. -/
def w5state : DiskState :=
  { metas := [("b", FileData.good
      { highest_used_id := 2, lowest_unread_id := 1, read_ids := [] })],
    envelopes := [] }

theorem receive_broken_mailbox_stuck_witness :
    receive listCodec w5state "b" =
      (Except.error (MbError.brokenMailbox "b" "1"), w5state) :=
  receive_broken_mailbox_stuck listCodec w5state "b"
    { highest_used_id := 2, lowest_unread_id := 1, read_ids := [] }
    (by rfl) (by rfl) (Or.inl (by rfl))

/-- C7: acknowledging an existing item whose numeric id differs from
`lowest_unread_id` succeeds (no error) and leaves the metadata — in
particular the pointer — unchanged on disk; only the envelope's read flag is
rewritten. -/
theorem ack_out_of_order_pointer_unchanged (s : DiskState)
    (mailbox_id item_id : String) (m : MailboxMeta) (e : Envelope) (n : Nat)
    (hm : lookupMeta s mailbox_id = some (FileData.good m))
    (he : lookupEnv s mailbox_id item_id = some (FileData.good e))
    (hp : parseU64 item_id = some n)
    (hne : n ≠ m.lowest_unread_id) :
    (acknowledge s mailbox_id item_id).1 = Except.ok () ∧
    lookupMeta (acknowledge s mailbox_id item_id).2 mailbox_id =
      some (FileData.good m) := by
  have hem := ensure_meta_of_good hm
  have hmr : m.mark_read n = some m := by simp [MailboxMeta.mark_read, hne]
  simp [acknowledge, hem, he, hp, hmr, lookupMeta_saveMeta, lookupMeta_saveEnvelope]

/-- An unread envelope stored under id `"3"`. -/
def c7env : Envelope := { id := "3", read := false, data := "", debug := none }

/-- A mailbox with pointer at 1 holding `c7env`, for the C7 witness. -/
def c7state : DiskState :=
  { metas := [("m", FileData.good
      { highest_used_id := 5, lowest_unread_id := 1, read_ids := [] })],
    envelopes := [(("m", "3"), FileData.good c7env)] }

theorem ack_out_of_order_pointer_unchanged_witness :
    (acknowledge c7state "m" "3").1 = Except.ok () ∧
    lookupMeta (acknowledge c7state "m" "3").2 "m" =
      some (FileData.good
        { highest_used_id := 5, lowest_unread_id := 1, read_ids := [] }) :=
  ack_out_of_order_pointer_unchanged c7state "m" "3"
    { highest_used_id := 5, lowest_unread_id := 1, read_ids := [] }
    c7env 3 (by rfl) (by rfl) (by rfl) (by decide)

/-- C8: whenever `receive` returns an item, it has written nothing — the disk
state it leaves behind is the state it started from — so calling it again
without an intervening `send` or `acknowledge` runs on the identical state
and returns the identical `(id, item)` result. -/
theorem receive_idempotent {ITEM : Type} (codec : MailboxItemCodec ITEM)
    (s : DiskState) (mailbox_id item_id : String) (item : ITEM)
    (h : (receive codec s mailbox_id).1 = Except.ok (some (item_id, item))) :
    (receive codec s mailbox_id).2 = s ∧
    receive codec (receive codec s mailbox_id).2 mailbox_id =
      receive codec s mailbox_id := by
  have hs : (receive codec s mailbox_id).2 = s := by
    rcases hm : lookupMeta s mailbox_id with _ | f
    · have hem : ensure_meta s mailbox_id =
          (Except.ok MailboxMeta.default, saveMeta s mailbox_id MailboxMeta.default) := by
        simp [ensure_meta, hm]
      simp [receive, hem, MailboxMeta.any_unread, MailboxMeta.default] at h
    · rcases f with m | _
      · have hem := ensure_meta_of_good hm
        by_cases hu : m.any_unread = false
        · simp [receive, hem, hu]
        · have hu1 : m.any_unread = true := by
            revert hu; cases m.any_unread <;> simp
          rcases h1 : lookupEnv s mailbox_id m.lowest_unread_str with _ | f1
          · simp [receive, hem, hu1, h1]
          · rcases f1 with e | _
            · rcases h2 : e.dataBytes with _ | data
              · simp [receive, hem, hu1, h1, h2]
              · rcases h3 : codec.deserialize data with msg | it
                · simp [receive, hem, hu1, h1, h2, h3]
                · simp [receive, hem, hu1, h1, h2, h3]
            · simp [receive, hem, hu1, h1]
      · have hem : ensure_meta s mailbox_id =
            (Except.error (MbError.metaCorrupt mailbox_id), s) := by
          simp [ensure_meta, hm]
        simp [receive, hem] at h
  exact ⟨hs, by rw [hs]⟩

/-- A mailbox whose `receive` delivers item `"1"` (= the bytes of `"hi"`),
for the C8 witness. -/
def w8state : DiskState :=
  { metas := [("m", FileData.good
      { highest_used_id := 2, lowest_unread_id := 1, read_ids := [] })],
    envelopes := [(("m", "1"),
      FileData.good { id := "1", read := false, data := "aGk=", debug := none })] }

theorem receive_idempotent_witness :
    (receive listCodec w8state "m").2 = w8state ∧
    receive listCodec (receive listCodec w8state "m").2 "m" =
      receive listCodec w8state "m" :=
  receive_idempotent listCodec w8state "m" "1" [104, 105] (by rfl)

/-- Run a sequence of `send` calls to one mailbox, collecting the returned
ids; stops at the first failure. -/
def sendAll {ITEM : Type} (codec : MailboxItemCodec ITEM) (mailbox_id : String) :
    DiskState → List ITEM → Except MbError (List String × DiskState)
  | s, [] => Except.ok ([], s)
  | s, item :: rest =>
    match send codec s mailbox_id item with
    | (Except.ok item_id, s1) =>
      match sendAll codec mailbox_id s1 rest with
      | Except.ok (ids, s2) => Except.ok (item_id :: ids, s2)
      | Except.error e => Except.error e
    | (Except.error e, _) => Except.error e

theorem send_ok_shape {ITEM : Type} (codec : MailboxItemCodec ITEM)
    {s : DiskState} {mailbox_id : String} {item : ITEM} {m : MailboxMeta}
    {item_id : String} {s1 : DiskState}
    (hm : (ensure_meta s mailbox_id).1 = Except.ok m)
    (h : send codec s mailbox_id item = (Except.ok item_id, s1)) :
    item_id = Nat.repr (m.highest_used_id + 1) ∧
    lookupMeta s1 mailbox_id =
      some (FileData.good { m with highest_used_id := m.highest_used_id + 1 }) := by
  rcases hem : ensure_meta s mailbox_id with ⟨r, s0⟩
  rw [hem] at hm
  simp only at hm
  subst hm
  rcases hni : m.next_id with _ | p
  · simp [send, hem, hni] at h
  · rcases p with ⟨nid, m1⟩
    have hni1 : nid = Nat.repr (m.highest_used_id + 1) ∧
        m1 = { m with highest_used_id := m.highest_used_id + 1 } := by
      unfold MailboxMeta.next_id at hni
      split at hni
      · rw [Option.some.injEq, Prod.mk.injEq] at hni
        exact ⟨hni.1.symm, hni.2.symm⟩
      · simp at hni
    rcases hser : codec.serialize item with msg | data
    · simp [send, hem, hni, hser] at h
    · simp only [send, hem, hni, hser, Prod.mk.injEq, Except.ok.injEq] at h
      obtain ⟨hid, hst⟩ := h
      refine ⟨by rw [← hid, hni1.1], ?_⟩
      rw [← hst, lookupMeta_saveMeta]
      simp [hni1.2]

theorem sendAll_ids {ITEM : Type} (codec : MailboxItemCodec ITEM) (mailbox_id : String) :
    ∀ (items : List ITEM) (s : DiskState) (m : MailboxMeta)
      (ids : List String) (s2 : DiskState),
    (ensure_meta s mailbox_id).1 = Except.ok m →
    sendAll codec mailbox_id s items = Except.ok (ids, s2) →
    ids = (List.range items.length).map
      (fun i => Nat.repr (m.highest_used_id + i + 1)) := by
  intro items
  induction items with
  | nil =>
    intro s m ids s2 hm h
    simp only [sendAll, Except.ok.injEq, Prod.mk.injEq] at h
    simp [← h.1]
  | cons item rest ih =>
    intro s m ids s2 hm h
    simp only [sendAll] at h
    rcases hsend : send codec s mailbox_id item with ⟨r1, s1⟩
    rw [hsend] at h
    rcases r1 with e | item_id
    · simp at h
    · dsimp only [] at h
      rcases hrest : sendAll codec mailbox_id s1 rest with e | p
      · rw [hrest] at h; simp at h
      · rcases p with ⟨ids1, s3⟩
        rw [hrest] at h
        simp only [Except.ok.injEq, Prod.mk.injEq] at h
        obtain ⟨hid, hlm⟩ := send_ok_shape codec hm hsend
        have hm1 : (ensure_meta s1 mailbox_id).1 =
            Except.ok { m with highest_used_id := m.highest_used_id + 1 } := by
          rw [ensure_meta_of_good hlm]
        have htail := ih s1 _ ids1 s3 hm1 hrest
        rw [← h.1, htail, hid]
        rw [List.length_cons, List.range_succ_eq_map, List.map_cons, List.map_map]
        refine congrArg₂ List.cons (by simp) ?_
        refine List.map_congr_left ?_
        intro i _
        simp only [Function.comp_apply]
        refine congrArg Nat.repr ?_
        omega

/-- C6: from a fresh mailbox (`highest_used_id = 0`), a sequence of
successful `send` calls returns exactly the decimal ids `"1", "2", "3", …`
of `1..n` in order — strictly increasing, no gaps, no repeats, no reuse. -/
theorem fresh_sends_assign_sequential_ids {ITEM : Type}
    (codec : MailboxItemCodec ITEM) (mailbox_id : String) (items : List ITEM)
    (s : DiskState) (m : MailboxMeta) (ids : List String) (s2 : DiskState)
    (hm : (ensure_meta s mailbox_id).1 = Except.ok m)
    (h0 : m.highest_used_id = 0)
    (h : sendAll codec mailbox_id s items = Except.ok (ids, s2)) :
    ids = (List.range items.length).map (fun i => Nat.repr (i + 1)) := by
  have := sendAll_ids codec mailbox_id items s m ids s2 hm h
  rw [this, h0]
  simp

/-- Three one-byte items for the C6 witness. -/
def w6items : List (List Nat) := [[104], [105], [106]]

/-- The disk state left by sending `w6items` to a fresh mailbox. -/
def w6final : DiskState :=
  match sendAll listCodec "m" DiskState.empty w6items with
  | Except.ok (_, s) => s
  | Except.error _ => DiskState.empty

theorem fresh_sends_assign_sequential_ids_witness :
    ["1", "2", "3"] =
      (List.range w6items.length).map (fun i => Nat.repr (i + 1)) :=
  fresh_sends_assign_sequential_ids listCodec "m" w6items DiskState.empty
    MailboxMeta.default ["1", "2", "3"] w6final (by rfl) (by rfl) (by rfl)

/-- One engine call in a usage trace. -/
inductive Op (ITEM : Type) : Type where
  | send (mailbox_id : String) (item : ITEM) : Op ITEM
  | receive (mailbox_id : String) : Op ITEM
  | acknowledge (mailbox_id item_id : String) : Op ITEM

/-- The disk state an operation leaves behind (its result value dropped). -/
def runOp {ITEM : Type} (codec : MailboxItemCodec ITEM) (s : DiskState) :
    Op ITEM → DiskState
  | Op.send mailbox_id item => (send codec s mailbox_id item).2
  | Op.receive mailbox_id => (receive codec s mailbox_id).2
  | Op.acknowledge mailbox_id item_id => (acknowledge s mailbox_id item_id).2

/-- Run a trace of operations left to right. -/
def runTrace {ITEM : Type} (codec : MailboxItemCodec ITEM) :
    DiskState → List (Op ITEM) → DiskState
  | s, [] => s
  | s, op :: rest => runTrace codec (runOp codec s op) rest

/-- The numeric id an acknowledge targets is one a previous send handed out:
`id ≤ highest_used_id` of the metadata the call will use.  (Vacuous when the
id does not parse or the metadata is unreadable — those calls fail before
touching the pointer.) -/
def ackInRange (s : DiskState) (mailbox_id item_id : String) : Bool :=
  match parseU64 item_id, (ensure_meta s mailbox_id).1 with
  | some n, Except.ok m => decide (n ≤ m.highest_used_id)
  | _, _ => true

/-- Traces whose acknowledges only target ids already handed out by send, as
in the C9 hypothesis. -/
inductive WFTrace {ITEM : Type} (codec : MailboxItemCodec ITEM) :
    DiskState → List (Op ITEM) → Prop where
  | nil (s : DiskState) : WFTrace codec s []
  | cons_send (s : DiskState) (mailbox_id : String) (item : ITEM)
      {rest : List (Op ITEM)}
      (h : WFTrace codec (runOp codec s (Op.send mailbox_id item)) rest) :
      WFTrace codec s (Op.send mailbox_id item :: rest)
  | cons_receive (s : DiskState) (mailbox_id : String) {rest : List (Op ITEM)}
      (h : WFTrace codec (runOp codec s (Op.receive mailbox_id)) rest) :
      WFTrace codec s (Op.receive mailbox_id :: rest)
  | cons_ack (s : DiskState) (mailbox_id item_id : String) {rest : List (Op ITEM)}
      (hin : ackInRange s mailbox_id item_id = true)
      (h : WFTrace codec (runOp codec s (Op.acknowledge mailbox_id item_id)) rest) :
      WFTrace codec s (Op.acknowledge mailbox_id item_id :: rest)

/-- A per-meta-file invariant holding for every meta file on disk. -/
def DiskInv (f : FileData MailboxMeta → Bool) (s : DiskState) : Prop :=
  ∀ p ∈ s.metas, f p.2 = true

theorem diskInv_saveEnvelope {f : FileData MailboxMeta → Bool} {s : DiskState}
    (mailbox_id item_id : String) (e : Envelope) (h : DiskInv f s) :
    DiskInv f (saveEnvelope s mailbox_id item_id e) :=
  fun p hp => h p hp

theorem diskInv_saveMeta {f : FileData MailboxMeta → Bool} {s : DiskState}
    {mailbox_id : String} {m : MailboxMeta} (h : DiskInv f s)
    (hm : f (FileData.good m) = true) : DiskInv f (saveMeta s mailbox_id m) := by
  intro p hp
  rcases mem_aset hp with h1 | h1
  · rw [h1]
    exact hm
  · exact h p h1

theorem diskInv_lookup {f : FileData MailboxMeta → Bool} {s : DiskState}
    {mailbox_id : String} {fd : FileData MailboxMeta} (h : DiskInv f s)
    (hm : lookupMeta s mailbox_id = some fd) : f fd = true :=
  h (mailbox_id, fd) (alookup_mem hm)

theorem diskInv_ensure {f : FileData MailboxMeta → Bool} {s : DiskState}
    (mailbox_id : String) (h : DiskInv f s)
    (hd : f (FileData.good MailboxMeta.default) = true) :
    DiskInv f (ensure_meta s mailbox_id).2 := by
  rcases hm : lookupMeta s mailbox_id with _ | fd
  · simp only [ensure_meta, hm]
    exact diskInv_saveMeta h hd
  · rcases fd with m | _ <;> simp only [ensure_meta, hm] <;> exact h

theorem diskInv_ensure_ok {f : FileData MailboxMeta → Bool} {s : DiskState}
    {mailbox_id : String} {m : MailboxMeta} (h : DiskInv f s)
    (hd : f (FileData.good MailboxMeta.default) = true)
    (hm : (ensure_meta s mailbox_id).1 = Except.ok m) :
    f (FileData.good m) = true := by
  rcases hl : lookupMeta s mailbox_id with _ | fd
  · simp [ensure_meta, hl] at hm
    rw [← hm]
    exact hd
  · rcases fd with m0 | _
    · simp [ensure_meta, hl] at hm
      rw [← hm]
      exact diskInv_lookup h hl
    · simp [ensure_meta, hl] at hm

/-- `receive` never writes beyond the lazy meta creation in `ensure_meta`. -/
theorem receive_state_eq {ITEM : Type} (codec : MailboxItemCodec ITEM)
    (s : DiskState) (mailbox_id : String) :
    (receive codec s mailbox_id).2 = (ensure_meta s mailbox_id).2 := by
  rcases hem : ensure_meta s mailbox_id with ⟨r, s1⟩
  rcases r with e | m
  · simp [receive, hem]
  · by_cases hu : m.any_unread = false
    · simp [receive, hem, hu]
    · have hu1 : m.any_unread = true := by
        revert hu; cases m.any_unread <;> simp
      rcases h1 : lookupEnv s1 mailbox_id m.lowest_unread_str with _ | f1
      · simp [receive, hem, hu1, h1]
      · rcases f1 with e1 | _
        · rcases h2 : e1.dataBytes with _ | data
          · simp [receive, hem, hu1, h1, h2]
          · rcases h3 : codec.deserialize data with msg | it <;>
              simp [receive, hem, hu1, h1, h2, h3]
        · simp [receive, hem, hu1, h1]

theorem diskInv_send {f : FileData MailboxMeta → Bool}
    (hd : f (FileData.good MailboxMeta.default) = true)
    (hstep : ∀ m : MailboxMeta, f (FileData.good m) = true →
      f (FileData.good { m with highest_used_id := m.highest_used_id + 1 }) = true)
    {ITEM : Type} (codec : MailboxItemCodec ITEM) {s : DiskState}
    {mailbox_id : String} {item : ITEM} (h : DiskInv f s) :
    DiskInv f (send codec s mailbox_id item).2 := by
  rcases hem : ensure_meta s mailbox_id with ⟨r, s1⟩
  have hs1 : DiskInv f s1 := by
    have := diskInv_ensure mailbox_id h hd
    rwa [hem] at this
  rcases r with e | m
  · simpa [send, hem] using hs1
  · rcases hni : m.next_id with _ | p
    · simpa [send, hem, hni] using hs1
    · rcases p with ⟨nid, m1⟩
      have hm1 : m1 = { m with highest_used_id := m.highest_used_id + 1 } := by
        unfold MailboxMeta.next_id at hni
        split at hni
        · rw [Option.some.injEq, Prod.mk.injEq] at hni
          exact hni.2.symm
        · simp at hni
      rcases hser : codec.serialize item with msg | data
      · simpa [send, hem, hni, hser] using hs1
      · simp only [send, hem, hni, hser]
        have hq : f (FileData.good m) = true :=
          diskInv_ensure_ok h hd (by rw [hem])
        exact diskInv_saveMeta (diskInv_saveEnvelope _ _ _ hs1) (hm1 ▸ hstep m hq)

theorem diskInv_receive {f : FileData MailboxMeta → Bool}
    (hd : f (FileData.good MailboxMeta.default) = true)
    {ITEM : Type} (codec : MailboxItemCodec ITEM) {s : DiskState}
    {mailbox_id : String} (h : DiskInv f s) :
    DiskInv f (receive codec s mailbox_id).2 := by
  rw [receive_state_eq]
  exact diskInv_ensure mailbox_id h hd

theorem diskInv_ack_any {f : FileData MailboxMeta → Bool}
    (hd : f (FileData.good MailboxMeta.default) = true)
    (hstep : ∀ (m : MailboxMeta) (n : Nat) (m1 : MailboxMeta),
      f (FileData.good m) = true → m.mark_read n = some m1 →
      f (FileData.good m1) = true)
    {s : DiskState} {mailbox_id item_id : String} (h : DiskInv f s) :
    DiskInv f (acknowledge s mailbox_id item_id).2 := by
  rcases hem : ensure_meta s mailbox_id with ⟨r, s1⟩
  have hs1 : DiskInv f s1 := by
    have := diskInv_ensure mailbox_id h hd
    rwa [hem] at this
  rcases r with e | m
  · simpa [acknowledge, hem] using hs1
  · rcases h1 : lookupEnv s1 mailbox_id item_id with _ | f1
    · simpa [acknowledge, hem, h1] using hs1
    · rcases f1 with e1 | _
      · rcases hp : parseU64 item_id with _ | n
        · simpa [acknowledge, hem, h1, hp] using hs1
        · rcases hmr : m.mark_read n with _ | m1
          · simpa [acknowledge, hem, h1, hp, hmr] using hs1
          · simp only [acknowledge, hem, h1, hp, hmr]
            have hq : f (FileData.good m) = true :=
              diskInv_ensure_ok h hd (by rw [hem])
            exact diskInv_saveMeta (diskInv_saveEnvelope _ _ _ hs1)
              (hstep m n m1 hq hmr)
      · simpa [acknowledge, hem, h1] using hs1

theorem diskInv_ack_in_range {f : FileData MailboxMeta → Bool}
    (hd : f (FileData.good MailboxMeta.default) = true)
    (hstep : ∀ (m : MailboxMeta) (n : Nat) (m1 : MailboxMeta),
      f (FileData.good m) = true → n ≤ m.highest_used_id →
      m.mark_read n = some m1 → f (FileData.good m1) = true)
    {s : DiskState} {mailbox_id item_id : String} (h : DiskInv f s)
    (hin : ackInRange s mailbox_id item_id = true) :
    DiskInv f (acknowledge s mailbox_id item_id).2 := by
  rcases hem : ensure_meta s mailbox_id with ⟨r, s1⟩
  have hs1 : DiskInv f s1 := by
    have := diskInv_ensure mailbox_id h hd
    rwa [hem] at this
  rcases r with e | m
  · simpa [acknowledge, hem] using hs1
  · rcases h1 : lookupEnv s1 mailbox_id item_id with _ | f1
    · simpa [acknowledge, hem, h1] using hs1
    · rcases f1 with e1 | _
      · rcases hp : parseU64 item_id with _ | n
        · simpa [acknowledge, hem, h1, hp] using hs1
        · rcases hmr : m.mark_read n with _ | m1
          · simpa [acknowledge, hem, h1, hp, hmr] using hs1
          · have hb : n ≤ m.highest_used_id := by
              simp [ackInRange, hem, hp] at hin
              exact hin
            simp only [acknowledge, hem, h1, hp, hmr]
            have hq : f (FileData.good m) = true :=
              diskInv_ensure_ok h hd (by rw [hem])
            exact diskInv_saveMeta (diskInv_saveEnvelope _ _ _ hs1)
              (hstep m n m1 hq hb hmr)
      · simpa [acknowledge, hem, h1] using hs1

/-- Does a meta file satisfy `lowest_unread_id ≤ highest_used_id + 1`? -/
def pointerOK : FileData MailboxMeta → Bool
  | FileData.good m => decide (m.lowest_unread_id ≤ m.highest_used_id + 1)
  | FileData.corrupt => true

/-- Every meta file on disk satisfies the spec's pointer invariant. -/
def PointerInv (s : DiskState) : Prop := DiskInv pointerOK s

/-- Does a meta file have an empty `read_ids` set? -/
def readIdsEmptyOK : FileData MailboxMeta → Bool
  | FileData.good m => m.read_ids.isEmpty
  | FileData.corrupt => true

/-- Every meta file on disk has an empty `read_ids` set. -/
def ReadIdsInv (s : DiskState) : Prop := DiskInv readIdsEmptyOK s

/-- C9: from any state satisfying `lowest_unread_id ≤ highest_used_id + 1`
for every mailbox's metadata (the fresh disk and the default metadata do),
any trace of send, receive and acknowledge operations whose acknowledges
target ids already handed out by send (`id ≤ highest_used_id`) preserves
that invariant. -/
theorem wf_trace_preserves_pointer_invariant {ITEM : Type}
    (codec : MailboxItemCodec ITEM) (trace : List (Op ITEM)) (s : DiskState)
    (hwf : WFTrace codec s trace) (hinv : PointerInv s) :
    PointerInv (runTrace codec s trace) := by
  revert hinv
  induction hwf with
  | nil s1 =>
    intro h
    exact h
  | cons_send s1 mid item hr ih =>
    intro h
    simp only [runTrace]
    refine ih ?_
    refine diskInv_send (by decide) ?_ codec h
    intro m hm
    simp only [pointerOK, decide_eq_true_eq] at hm ⊢
    omega
  | cons_receive s1 mid hr ih =>
    intro h
    simp only [runTrace]
    exact ih (diskInv_receive (by decide) codec h)
  | cons_ack s1 mid iid hin hr ih =>
    intro h
    simp only [runTrace]
    refine ih ?_
    refine diskInv_ack_in_range (by decide) ?_ h hin
    intro m n m1 hm hb hmr
    unfold MailboxMeta.mark_read at hmr
    by_cases hn : n = m.lowest_unread_id
    · rw [if_pos hn] at hmr
      split at hmr
      · rw [Option.some.injEq] at hmr
        rw [← hmr]
        simp only [pointerOK, decide_eq_true_eq] at hm ⊢
        omega
      · simp at hmr
    · rw [if_neg hn, Option.some.injEq] at hmr
      rw [← hmr]
      exact hm

/-- A well-formed trace for the C9 witness: two sends, a receive, and an
in-order acknowledge of id `"1"`. -/
def w9trace : List (Op (List Nat)) :=
  [Op.send "m" [104], Op.send "m" [105], Op.receive "m",
    Op.acknowledge "m" "1"]

theorem wf_trace_preserves_pointer_invariant_witness :
    PointerInv (runTrace listCodec DiskState.empty w9trace) :=
  wf_trace_preserves_pointer_invariant listCodec w9trace DiskState.empty
    (WFTrace.cons_send _ _ _ (WFTrace.cons_send _ _ _
      (WFTrace.cons_receive _ _ (WFTrace.cons_ack _ _ _ (by decide)
        (WFTrace.nil _)))))
    (fun p hp => absurd hp (List.not_mem_nil p))

/-- C10: starting from any state in which every mailbox's `read_ids` is
empty (the fresh disk is), every trace of send, receive and acknowledge
operations — in-order or out-of-order, no restriction — leaves every
`read_ids` empty: no code path ever inserts into it. -/
theorem trace_read_ids_stay_empty {ITEM : Type}
    (codec : MailboxItemCodec ITEM) :
    ∀ (trace : List (Op ITEM)) (s : DiskState),
    ReadIdsInv s → ReadIdsInv (runTrace codec s trace) := by
  intro trace
  induction trace with
  | nil =>
    intro s h
    exact h
  | cons op rest ih =>
    intro s h
    simp only [runTrace]
    refine ih _ ?_
    rcases op with ⟨mid, item⟩ | ⟨mid⟩ | ⟨mid, iid⟩
    · refine diskInv_send (by decide) ?_ codec h
      intro m hm
      simpa only [readIdsEmptyOK] using hm
    · exact diskInv_receive (by decide) codec h
    · refine diskInv_ack_any (by decide) ?_ h
      intro m n m1 hm hmr
      unfold MailboxMeta.mark_read at hmr
      by_cases hn : n = m.lowest_unread_id
      · rw [if_pos hn] at hmr
        split at hmr
        · rw [Option.some.injEq] at hmr
          rw [← hmr]
          simpa only [readIdsEmptyOK] using hm
        · simp at hmr
      · rw [if_neg hn, Option.some.injEq] at hmr
        rw [← hmr]
        exact hm

/-- A trace with an out-of-order acknowledge (`"2"` while the pointer is at
1), for the C10 witness. -/
def w10trace : List (Op (List Nat)) :=
  [Op.send "m" [104], Op.send "m" [105], Op.receive "m",
    Op.acknowledge "m" "2"]

theorem trace_read_ids_stay_empty_witness :
    ReadIdsInv (runTrace listCodec DiskState.empty w10trace) :=
  trace_read_ids_stay_empty listCodec w10trace DiskState.empty
    (fun p hp => absurd hp (List.not_mem_nil p))

end OmlMailbox
